import Mathlib

/-!
Verification development for the `lfinder` repository (a concurrent
symlink/hardlink finder written in Go).

The repository contains two generations of the program:
* `src/unnamed/part_000` — the current implementation (`Config` struct,
  context-based timeout/cancellation, skip-directories, checked inode
  extraction `getInode`);
* `src/main.go` — the legacy implementation (global flags, unchecked
  `Stat_t` type assertion, unconditional `filepath.Join` of the target).

This file shallowly embeds the pure logic of both where claims need it.
Modelling conventions:
* A filesystem path is a list of name components of an absolute path
  (the working directory is fixed to the filesystem root, so `filepath.Abs`
  coincides with lexical cleaning `cleanComps`).
* The filesystem is a static rooted tree `FsNode`.  Directory entry lists
  are written in lexically sorted order, matching the sorted enumeration
  of Go's `filepath.WalkDir`.
* Recursion that Go bounds dynamically (symlink-chain following bounded by
  255 hops in `filepath.EvalSymlinks`, unbounded directory recursion in
  `WalkDir`) is modelled with an explicit fuel parameter; every general
  theorem quantifies over the fuel, and concrete runs use fuel larger than
  the tree depth.
* `runtime.GOOS` is passed explicitly as the `goos : String` argument.
* Inode numbers of directories and symlinks are not modelled (the program
  only ever compares inode numbers of regular files); they are rendered
  as `0` in `FileInfo`.
-/

namespace LFinder

/-- A filesystem path, as the components of an absolute path. -/
abbrev Path := List String

/-- Render a path the way the Go program prints it (components joined by
slashes, rooted). -/
def pathToString (p : Path) : String :=
  "/" ++ String.intercalate "/" p

/-- Lexical path cleaning on components, as performed by `filepath.Clean`
on absolute paths: drops `.` components and resolves `..` lexically
(at the root, `..` stays at the root). -/
def cleanComps (cs : List String) : List String :=
  cs.foldl (fun acc c =>
    if c = "." then acc
    else if c = ".." then acc.dropLast
    else acc ++ [c]) []

/-- A node of the modelled filesystem tree.  A symlink stores its literal
link text (absolute flag plus components, which may include `.` and `..`). -/
inductive FsNode where
  | file (ino : Nat)
  | symlink (linkAbs : Bool) (linkComps : List String)
  | dir (entries : List (String × FsNode))

/-- The file-mode classification the worker reads off `os.Lstat`:
regular file, symbolic link, or directory. -/
inductive FileMode where
  | regular
  | symlink
  | dir
deriving DecidableEq

/-- The platform-specific payload behind `FileInfo.Sys()`: either a
`*syscall.Stat_t` carrying the inode number, or some other unexpected
shape. -/
inductive SysInfo where
  | statT (ino : Nat)
  | other
deriving DecidableEq

/-- The slice of `fs.FileInfo` the program consumes: the mode bits and
the platform payload. -/
structure FileInfo where
  mode : FileMode
  sys : SysInfo
deriving DecidableEq

/-- FileInfo of a tree node.  Inode numbers of directories and symlinks
are not modelled (never compared by the program) and are rendered as 0.
On this modelled Unix filesystem the payload is always a `statT`. -/
def nodeFileInfo : FsNode → FileInfo
  | FsNode.file i => ⟨FileMode.regular, SysInfo.statT i⟩
  | FsNode.symlink _ _ => ⟨FileMode.symlink, SysInfo.statT 0⟩
  | FsNode.dir _ => ⟨FileMode.dir, SysInfo.statT 0⟩

/-- Navigate the tree along a path without following symlinks. -/
def lookupFrom (n : FsNode) : Path → Option FsNode
  | [] => some n
  | c :: rest =>
    match n with
    | FsNode.dir es =>
      match es.lookup c with
      | some m => lookupFrom m rest
      | none => none
    | _ => none

/-- Model of `os.Lstat` on the walked paths (which contain no symlink
components, since the walker never descends into symlinks). -/
def lstat (root : FsNode) (p : Path) : Option FileInfo :=
  (lookupFrom root p).map nodeFileInfo

/-- Model of `os.Readlink`: the literal link text of a symlink node. -/
def readlink (root : FsNode) (p : Path) : Option (Bool × List String) :=
  match lookupFrom root p with
  | some (FsNode.symlink a cs) => some (a, cs)
  | _ => none

/-- Render a literal link text the way `os.Readlink` returns it. -/
def linkTextToString : Bool × List String → String
  | (abs, cs) => (if abs then "/" else "") ++ String.intercalate "/" cs

/-- Resolution core of `filepath.EvalSymlinks`: resolve the remaining
components `cs` against the already fully-resolved absolute path `base`,
following symlinks as they are encountered.  `fuel` bounds the number of
steps, modelling the 255-link-hop guard of the Go implementation (and,
as a model artifact, also bounding path length; all theorems either
quantify over `fuel` or use concrete paths far below the bound).
Failure (`none`) covers nonexistent components, descending into a
non-directory, and exhausting the link budget. -/
def resolveComps (root : FsNode) (fuel : Nat) (base : Path) (cs : List String) :
    Option Path :=
  match fuel with
  | 0 => none
  | f + 1 =>
    match cs with
    | [] => some base
    | c :: rest =>
      if c = "." then resolveComps root f base rest
      else if c = ".." then resolveComps root f base.dropLast rest
      else
        match lookupFrom root (base ++ [c]) with
        | none => none
        | some (FsNode.dir _) => resolveComps root f (base ++ [c]) rest
        | some (FsNode.file _) =>
          if rest.isEmpty then some (base ++ [c]) else none
        | some (FsNode.symlink linkAbs linkComps) =>
          resolveComps root f (if linkAbs then [] else base) (linkComps ++ rest)

/-- Model of `filepath.EvalSymlinks` on an absolute path. -/
def evalSymlinks (root : FsNode) (p : Path) : Option Path :=
  resolveComps root 255 [] p

/-- Model of `getInode` (part_000 lines 26-37): refuses on Windows,
extracts the inode from a `*syscall.Stat_t` payload, and reports a typed
failure on any other payload shape. -/
def getInode (goos : String) (info : FileInfo) : Except String Nat :=
  if goos = "windows" then
    Except.error "hard links detection not supported on Windows"
  else
    match info.sys with
    | SysInfo.statT ino => Except.ok ino
    | SysInfo.other => Except.error "unable to get system file info"

/-- Control-flow skeleton of `checkAndSendSymlink` (part_000 lines 41-76)
with the results of its two filesystem calls passed in explicitly: the
result of `filepath.EvalSymlinks(path)` and the result of
`os.Readlink(path)`.  `filepath.Abs` on the already-absolute strings is
the lexical cleaning `cleanComps`.  The returned list holds the lines
sent to the results channel (empty on any error or on no match). -/
def checkAndSendSymlinkOps (path target : Path) (evalRes : Option Path)
    (readRes : Option (Bool × List String)) : List String :=
  match evalRes with
  | none => []
  | some resolved =>
    if cleanComps resolved = cleanComps target then
      match readRes with
      | none => []
      | some lt => [pathToString path ++ " (symlink) -> " ++ linkTextToString lt]
    else []

/-- `checkAndSendSymlink` against the modelled filesystem. -/
def checkAndSendSymlink (root : FsNode) (path target : Path) : List String :=
  checkAndSendSymlinkOps path target (evalSymlinks root path) (readlink root path)

/-- Model of `checkAndSendHardlink` (part_000 lines 79-98): extract the
candidate's inode via `getInode`; on a typed failure the candidate is
silently skipped; on success emit a line exactly when the inodes agree. -/
def checkAndSendHardlink (goos : String) (path : Path) (targetInode : Nat)
    (fileInfo : FileInfo) : List String :=
  match getInode goos fileInfo with
  | Except.error _ => []
  | Except.ok fileInode =>
    if fileInode = targetInode then [pathToString path ++ " (hardlink)"] else []

/-- Model of `shouldSkipDir` (part_000 lines 101-108): exact path match
against the configured skip list. -/
def shouldSkipDir (path : Path) (skipDirs : List Path) : Bool :=
  skipDirs.any (fun dir => path == dir)

/-- Model of the `Config` struct (part_000 lines 17-23). -/
structure Config where
  SymlinksOnly : Bool
  HardlinksOnly : Bool
  SearchPath : Path
  SkipDirs : List Path
  TimeoutMinutes : Nat
deriving DecidableEq

/-- Per-candidate body of `worker` (part_000 lines 111-140): `os.Lstat`
the path (skipping silently on error), then dispatch the symlink/hardlink
checks according to the mode flags.  Returns the lines this candidate
contributes to the results channel. -/
def workerStep (goos : String) (config : Config) (root : FsNode) (target : Path)
    (targetInode : Nat) (path : Path) : List String :=
  match lstat root path with
  | none => []
  | some fileInfo =>
    if config.SymlinksOnly && (fileInfo.mode == FileMode.symlink) then
      checkAndSendSymlink root path target
    else if config.HardlinksOnly && !(fileInfo.mode == FileMode.dir)
        && (fileInfo.mode == FileMode.regular) then
      checkAndSendHardlink goos path targetInode fileInfo
    else if !config.SymlinksOnly && !config.HardlinksOnly then
      if fileInfo.mode == FileMode.symlink then
        checkAndSendSymlink root path target
      else if fileInfo.mode == FileMode.regular then
        checkAndSendHardlink goos path targetInode fileInfo
      else []
    else []

/-- Model of the walker goroutine's `filepath.WalkDir` callback
(part_000 lines 213-238) applied to the subtree at node `n` (whose path
is `p`): every visited entry is enqueued as a candidate, except that a
directory whose path exactly matches the skip list is pruned whole
(neither enqueued nor descended into); symlinks are leaves (`WalkDir`
does not follow them).  `fuel` bounds the recursion depth (a model
artifact: `WalkDir` recurses to arbitrary depth; concrete runs use fuel
above the tree depth and general theorems quantify over it).  Directory
entries are listed in the sorted order `WalkDir` uses. -/
def walkNode (skip : List Path) (fuel : Nat) (n : FsNode) (p : Path) : List Path :=
  match fuel, n with
  | _, FsNode.file _ => [p]
  | _, FsNode.symlink _ _ => [p]
  | 0, FsNode.dir _ => []
  | f + 1, FsNode.dir es =>
    if shouldSkipDir p skip then []
    else p :: es.flatMap (fun e => walkNode skip f e.2 (p ++ [e.1]))

/-- Candidate stream of a walk started at `searchPath` (nothing is
enqueued when the search root does not exist). -/
def walkCandidates (root : FsNode) (skip : List Path) (fuel : Nat)
    (searchPath : Path) : List Path :=
  match lookupFrom root searchPath with
  | some n => walkNode skip fuel n searchPath
  | none => []

/-- The complete (uncancelled) scan: every candidate the walker enqueues
is classified by a worker; the resulting lines, in the order of the
sequential schedule.  Across the concurrent schedules only the order of
this list varies. -/
def runScan (goos : String) (root : FsNode) (fuel : Nat) (config : Config)
    (target : Path) (targetInode : Nat) : List String :=
  (walkCandidates root config.SkipDirs fuel config.SearchPath).flatMap
    (workerStep goos config root target targetInode)

/-- A positional target argument as the user supplies it: whether the
string is absolute, and its components (which may include `.` and `..`). -/
structure TargetArg where
  isAbs : Bool
  comps : List String
deriving DecidableEq

/-- Target-path preparation of part_000 (lines 167-172): the target is
joined to the search path exactly when it is not already absolute
(`filepath.Join` cleans lexically; an absolute target is used verbatim). -/
def resolveTargetPath (searchPath : Path) (t : TargetArg) : Path :=
  if t.isAbs then t.comps else cleanComps (searchPath ++ t.comps)

/-- Model of `os.Stat`: resolve the path fully (following symlinks) and
report the metadata of the resolved node. -/
def statFollow (root : FsNode) (p : Path) : Option FileInfo :=
  match evalSymlinks root p with
  | some rp => lstat root rp
  | none => none

/-- The two termination signals of the shared context: the deadline
elapsed, or an external cancellation. -/
inductive CancelReason where
  | deadlineExceeded
  | canceled
deriving DecidableEq

/-- The terminal status line the drain loop prints for each termination
signal (part_000 lines 255-259). -/
def statusLine : CancelReason → String
  | CancelReason.deadlineExceeded => "Search timed out"
  | CancelReason.canceled => "Search canceled"

/-- Observable outcome of one invocation of the program: the process
exit status, the match lines streamed to standard output, and the
terminal status line, when one is printed. -/
structure RunOutcome where
  exitCode : Nat
  streamed : List String
  status : Option String
deriving DecidableEq

/-- Outcome of the drain loop (part_000 lines 251-267) over the full
result list of a scan.  With no termination signal the loop drains
everything and prints no status line; when the signal fires after `k`
results have been drained, the delivered lines are that prefix and the
status line for the reason is printed (the remainder of the result queue
is dropped; see `DrainStep` for the step-level model). -/
def finishScan (allResults : List String) : Option (CancelReason × Nat) → RunOutcome
  | none => ⟨0, allResults, none⟩
  | some (r, k) => ⟨0, allResults.take k, some (statusLine r)⟩

/-- Model of `main` of part_000 (lines 142-268) after flag parsing:
usage check (exactly one positional argument), target resolution and
`os.Stat` (exit status 1 before any scanning on failure), `getInode` of
the target (exit status 1 before any scanning when it fails and
hardlinks-only mode was requested; otherwise the scan proceeds, with
the Go zero value 0 standing in for the unavailable target inode), then
the walk/classify/drain pipeline.  Once setup has passed, the process
always exits with status 0. -/
def lfinderMain (goos : String) (root : FsNode) (fuel : Nat) (config : Config)
    (args : List TargetArg) (cancel : Option (CancelReason × Nat)) : RunOutcome :=
  match args with
  | [t] =>
    match statFollow root (resolveTargetPath config.SearchPath t) with
    | none => ⟨1, [], none⟩
    | some targetInfo =>
      match getInode goos targetInfo with
      | Except.error _ =>
        if config.HardlinksOnly then ⟨1, [], none⟩
        else finishScan
          (runScan goos root fuel config (resolveTargetPath config.SearchPath t) 0)
          cancel
      | Except.ok targetInode =>
        finishScan
          (runScan goos root fuel config (resolveTargetPath config.SearchPath t)
            targetInode)
          cancel
  | _ => ⟨1, [], none⟩

/-- Result of running a piece of Go code that may panic. -/
inductive GoResult (α : Type) where
  | ok (a : α)
  | panicked
deriving DecidableEq

/-- Model of the legacy `checkAndSendHardlink` of `src/main.go`
(lines 48-52): the unchecked type assertion
`fileInfo.Sys().(*syscall.Stat_t)` panics whenever the payload is not a
`*syscall.Stat_t`; otherwise a line is sent exactly when the inodes
agree. -/
def mainGoCheckAndSendHardlink (path : Path) (targetInode : Nat)
    (fileInfo : FileInfo) : GoResult (List String) :=
  match fileInfo.sys with
  | SysInfo.statT ino =>
    GoResult.ok (if ino = targetInode then [pathToString path ++ " (hardlink)"] else [])
  | SysInfo.other => GoResult.panicked

/-- Target-path preparation of the legacy `src/main.go` (line 85):
`filepath.Join(searchPath, target)` is applied unconditionally, even
when the target is already absolute. -/
def mainGoTargetPath (searchPath : Path) (t : TargetArg) : Path :=
  cleanComps (searchPath ++ t.comps)

/-- State of the drain loop of part_000 (lines 251-267): the contents of
the buffered results channel, the lines printed so far, whether the loop
has returned, and the terminal status line, if printed. -/
structure DrainState where
  buffer : List String
  printed : List String
  finished : Bool
  status : Option String
deriving DecidableEq

/-- Step relation of the drain loop's `select`: when several cases are
ready, any of them may fire.  `cancel` tells whether (and why) the
shared context has fired; `closed` tells whether the results channel has
been closed. -/
inductive DrainStep (cancel : Option CancelReason) (closed : Bool) :
    DrainState → DrainState → Prop
  | recv (r : String) (rest printed : List String) :
    DrainStep cancel closed ⟨r :: rest, printed, false, none⟩
      ⟨rest, printed ++ [r], false, none⟩
  | chanClosed (printed : List String) (h : closed = true) :
    DrainStep cancel closed ⟨[], printed, false, none⟩ ⟨[], printed, true, none⟩
  | ctxDone (buf printed : List String) (r : CancelReason) (h : cancel = some r) :
    DrainStep cancel closed ⟨buf, printed, false, none⟩
      ⟨buf, printed, true, some (statusLine r)⟩

/-- The end-to-end example tree of the specification:
`root/{a.txt, link_to_a -> a.txt, sub/hard_a (hardlink of a.txt),
sub/other.txt}`.  `a.txt` and `sub/hard_a` share inode 1. -/
def exampleFs : FsNode :=
  FsNode.dir [("root", FsNode.dir
    [("a.txt", FsNode.file 1),
     ("link_to_a", FsNode.symlink false ["a.txt"]),
     ("sub", FsNode.dir
       [("hard_a", FsNode.file 1),
        ("other.txt", FsNode.file 2)])])]

/-- Default-mode configuration searching from `/root` with the default
skip list of part_000 (lines 144-147). -/
def exampleConfig : Config :=
  ⟨false, false, ["root"], [["proc"], ["sys"], ["dev"]], 30⟩

/-- Filesystem for the symlink-comparison claims: `/w/a.txt` with a
relative symlink `l1`, another relative symlink `l2`, and an absolute
symlink `l3`, all pointing at `a.txt`. -/
def symFs : FsNode :=
  FsNode.dir [("w", FsNode.dir
    [("a.txt", FsNode.file 1),
     ("l1", FsNode.symlink false ["a.txt"]),
     ("l2", FsNode.symlink false ["a.txt"]),
     ("l3", FsNode.symlink true ["w", "a.txt"])])]

/-- Filesystem for the skip-directory claim: a matching file (same inode
as the target `a.txt`) planted under the skipped directory
`/root/skipme`. -/
def skipFs : FsNode :=
  FsNode.dir [("root", FsNode.dir
    [("a.txt", FsNode.file 1),
     ("skipme", FsNode.dir [("planted", FsNode.file 1)])])]

/-- Configuration whose skip list contains `/root/skipme`. -/
def skipConfig : Config :=
  ⟨false, false, ["root"], [["root", "skipme"]], 30⟩

/-- `leadsTo p q` holds when the path `q` lies at or below the path `p`
in the directory tree, i.e. `p` is an initial segment of `q`. -/
def leadsTo : Path → Path → Bool
  | [], _ => true
  | _ :: _, [] => false
  | a :: ps, b :: qs => a == b && leadsTo ps qs

theorem leadsTo_refl (p : Path) : leadsTo p p = true := by
  induction p with
  | nil => rfl
  | cons a ps ih => simp [leadsTo, ih]

theorem leadsTo_append (p r : Path) : leadsTo p (p ++ r) = true := by
  induction p with
  | nil => rfl
  | cons a ps ih => simp [leadsTo, ih]

theorem leadsTo_length {p q : Path} (h : leadsTo p q = true) :
    p.length ≤ q.length := by
  induction p generalizing q with
  | nil => simp
  | cons a ps ih =>
    cases q with
    | nil => simp [leadsTo] at h
    | cons b qs =>
      simp only [leadsTo, Bool.and_eq_true] at h
      simpa using ih h.2

theorem leadsTo_eq_of_length {p q : Path} (h : leadsTo p q = true)
    (hl : p.length = q.length) : p = q := by
  induction p generalizing q with
  | nil =>
    cases q with
    | nil => rfl
    | cons b qs => simp at hl
  | cons a ps ih =>
    cases q with
    | nil => simp [leadsTo] at h
    | cons b qs =>
      simp only [leadsTo, Bool.and_eq_true, beq_iff_eq] at h
      simp only [List.length_cons, Nat.succ.injEq] at hl
      exact by rw [h.1, ih h.2 hl]

theorem leadsTo_antisymm {p q : Path} (h1 : leadsTo p q = true)
    (h2 : leadsTo q p = true) : p = q :=
  leadsTo_eq_of_length h1 (Nat.le_antisymm (leadsTo_length h1) (leadsTo_length h2))

theorem leadsTo_trans {p q r : Path} (h1 : leadsTo p q = true)
    (h2 : leadsTo q r = true) : leadsTo p r = true := by
  induction p generalizing q r with
  | nil => rfl
  | cons a ps ih =>
    cases q with
    | nil => simp [leadsTo] at h1
    | cons b qs =>
      cases r with
      | nil => simp [leadsTo] at h2
      | cons c rs =>
        simp only [leadsTo, Bool.and_eq_true, beq_iff_eq] at h1 h2 ⊢
        exact ⟨h1.1.trans h2.1, ih h1.2 h2.2⟩

theorem leadsTo_comparable {s t q : Path} (h1 : leadsTo s q = true)
    (h2 : leadsTo t q = true) : leadsTo s t = true ∨ leadsTo t s = true := by
  induction q generalizing s t with
  | nil =>
    cases s with
    | nil => exact Or.inl rfl
    | cons a ss => simp [leadsTo] at h1
  | cons c qs ih =>
    cases s with
    | nil => exact Or.inl rfl
    | cons a ss =>
      cases t with
      | nil => exact Or.inr rfl
      | cons b ts =>
        simp only [leadsTo, Bool.and_eq_true, beq_iff_eq] at h1 h2
        rcases ih h1.2 h2.2 with h | h
        · exact Or.inl (by simp [leadsTo, h1.1, h2.1, h])
        · exact Or.inr (by simp [leadsTo, h1.1, h2.1, h])

/-- A path is dot-free when none of its components is `.` or `..`. -/
def noDots (p : Path) : Prop := ∀ c ∈ p, c ≠ "." ∧ c ≠ ".."

theorem noDots_nil : noDots [] := by intro c hc; cases hc

theorem noDots_dropLast {p : Path} (h : noDots p) : noDots p.dropLast := by
  intro c hc
  exact h c (List.dropLast_subset p hc)

theorem noDots_append_single {p : Path} {c : String} (h : noDots p)
    (h1 : c ≠ ".") (h2 : c ≠ "..") : noDots (p ++ [c]) := by
  intro d hd
  rcases List.mem_append.mp hd with hd | hd
  · exact h d hd
  · rcases List.mem_singleton.mp hd with rfl
    exact ⟨h1, h2⟩

theorem cleanComps_go_of_noDots (l : List String) (h : noDots l) :
    ∀ acc : List String,
      l.foldl (fun acc c =>
        if c = "." then acc
        else if c = ".." then acc.dropLast
        else acc ++ [c]) acc = acc ++ l := by
  induction l with
  | nil => intro acc; simp
  | cons c cs ih =>
    intro acc
    have hc := h c (List.mem_cons_self c cs)
    have hcs : noDots cs := fun d hd => h d (List.mem_cons_of_mem c hd)
    simp only [List.foldl_cons, if_neg hc.1, if_neg hc.2]
    rw [ih hcs (acc ++ [c])]
    simp

/-- Lexical cleaning is the identity on dot-free paths. -/
theorem cleanComps_of_noDots {l : List String} (h : noDots l) :
    cleanComps l = l := by
  simpa using cleanComps_go_of_noDots l h []

/-- Every path produced by `resolveComps` from a dot-free base is
dot-free: resolution only ever appends literal names and pops
components. -/
theorem resolveComps_noDots (root : FsNode) :
    ∀ (fuel : Nat) (base : Path) (cs : List String) (r : Path),
      noDots base → resolveComps root fuel base cs = some r → noDots r := by
  intro fuel
  induction fuel with
  | zero => intro base cs r _ h; simp [resolveComps] at h
  | succ f ih =>
    intro base cs r hb h
    cases cs with
    | nil =>
      simp only [resolveComps, Option.some.injEq] at h
      exact h ▸ hb
    | cons c rest =>
      simp only [resolveComps] at h
      by_cases h1 : c = "."
      · exact ih base rest r hb (by simpa [h1] using h)
      · by_cases h2 : c = ".."
        · exact ih base.dropLast rest r (noDots_dropLast hb)
            (by simpa [h1, h2] using h)
        · simp only [if_neg h1, if_neg h2] at h
          cases hl : lookupFrom root (base ++ [c]) with
          | none => rw [hl] at h; cases h
          | some node =>
            rw [hl] at h
            cases node with
            | dir es =>
              exact ih (base ++ [c]) rest r (noDots_append_single hb h1 h2) h
            | file i =>
              by_cases hr : rest.isEmpty
              · simp only [hr, if_true, Option.some.injEq] at h
                exact h ▸ noDots_append_single hb h1 h2
              · simp [hr] at h
            | symlink la lc =>
              by_cases hla : la
              · exact ih [] (lc ++ rest) r noDots_nil (by simpa [hla] using h)
              · exact ih base (lc ++ rest) r hb (by simpa [hla] using h)

/-- Results of `evalSymlinks` are dot-free, hence fixed by `cleanComps`. -/
theorem evalSymlinks_clean {root : FsNode} {p r : Path}
    (h : evalSymlinks root p = some r) : cleanComps r = r :=
  cleanComps_of_noDots (resolveComps_noDots root 255 [] p r noDots_nil h)

/-- A path that is in the skip list is flagged by `shouldSkipDir`. -/
theorem shouldSkipDir_of_mem {s : Path} {skip : List Path} (hs : s ∈ skip) :
    shouldSkipDir s skip = true := by
  simp only [shouldSkipDir, List.any_eq_true]
  exact ⟨s, hs, by simp⟩

/-- Every candidate the walker enqueues lies at or below the walk's
starting path. -/
theorem walkNode_extends (skip : List Path) :
    ∀ (fuel : Nat) (n : FsNode) (p q : Path),
      q ∈ walkNode skip fuel n p → leadsTo p q = true := by
  intro fuel
  induction fuel with
  | zero =>
    intro n p q hq
    cases n with
    | file i => rcases List.mem_singleton.mp (by simpa [walkNode] using hq) with rfl
                exact leadsTo_refl _
    | symlink a cs => rcases List.mem_singleton.mp (by simpa [walkNode] using hq) with rfl
                      exact leadsTo_refl _
    | dir es => simp [walkNode] at hq
  | succ f ih =>
    intro n p q hq
    cases n with
    | file i => rcases List.mem_singleton.mp (by simpa [walkNode] using hq) with rfl
                exact leadsTo_refl _
    | symlink a cs => rcases List.mem_singleton.mp (by simpa [walkNode] using hq) with rfl
                      exact leadsTo_refl _
    | dir es =>
      by_cases hsd : shouldSkipDir p skip
      · simp [walkNode, hsd] at hq
      · simp only [walkNode, hsd, Bool.false_eq_true, if_false, List.mem_cons,
          List.mem_flatMap] at hq
        rcases hq with rfl | ⟨e, _, hqe⟩
        · exact leadsTo_refl q
        · exact leadsTo_trans (leadsTo_append p [e.1]) (ih e.2 (p ++ [e.1]) q hqe)

/-- Pruning lemma: once a path `s` is in the skip list, a walk started
at or above `s` never enqueues any candidate strictly below `s`. -/
theorem walkNode_pruned (skip : List Path) (s : Path) (hs : s ∈ skip) :
    ∀ (fuel : Nat) (n : FsNode) (p : Path), leadsTo p s = true →
      ∀ q ∈ walkNode skip fuel n p, ¬(leadsTo s q = true ∧ s ≠ q) := by
  intro fuel
  induction fuel with
  | zero =>
    intro n p hps q hq hcon
    cases n with
    | file i =>
      rcases List.mem_singleton.mp (by simpa [walkNode] using hq) with rfl
      exact hcon.2 (leadsTo_antisymm hcon.1 hps)
    | symlink a cs =>
      rcases List.mem_singleton.mp (by simpa [walkNode] using hq) with rfl
      exact hcon.2 (leadsTo_antisymm hcon.1 hps)
    | dir es => simp [walkNode] at hq
  | succ f ih =>
    intro n p hps q hq hcon
    cases n with
    | file i =>
      rcases List.mem_singleton.mp (by simpa [walkNode] using hq) with rfl
      exact hcon.2 (leadsTo_antisymm hcon.1 hps)
    | symlink a cs =>
      rcases List.mem_singleton.mp (by simpa [walkNode] using hq) with rfl
      exact hcon.2 (leadsTo_antisymm hcon.1 hps)
    | dir es =>
      by_cases hsd : shouldSkipDir p skip
      · simp [walkNode, hsd] at hq
      · simp only [walkNode, hsd, Bool.false_eq_true, if_false, List.mem_cons,
          List.mem_flatMap] at hq
        rcases hq with rfl | ⟨e, _, hqe⟩
        · exact hcon.2 (leadsTo_antisymm hcon.1 hps)
        · have hpq : leadsTo (p ++ [e.1]) q = true :=
            walkNode_extends skip f e.2 (p ++ [e.1]) q hqe
          rcases leadsTo_comparable hcon.1 hpq with hl | hr
          · have l1 : p.length ≤ s.length := leadsTo_length hps
            have l2 : s.length ≤ p.length + 1 := by
              simpa using leadsTo_length hl
            rcases Nat.lt_or_ge s.length (p.length + 1) with hlen | hlen
            · have : p = s := leadsTo_eq_of_length hps (Nat.le_antisymm l1 (by omega))
              exact hsd (this ▸ shouldSkipDir_of_mem hs)
            · have hse : s = p ++ [e.1] :=
                leadsTo_eq_of_length hl (by simp; omega)
              exact ih e.2 (p ++ [e.1]) (hse ▸ leadsTo_refl s) q hqe hcon
          · exact ih e.2 (p ++ [e.1]) hr q hqe hcon

/-- Hardlinks-only configuration used as a concrete witness input. -/
def hardOnlyConfig : Config :=
  ⟨false, true, ["root"], [["proc"], ["sys"], ["dev"]], 30⟩

/-- C1 counterexample: on the specification's example tree with target
`a.txt`, the default-mode scan from `/root` streams three match lines,
not two — the target file `a.txt` itself passes the hardlink inode
comparison and is reported as `(hardlink)` as well. -/
theorem c1_counterexample :
    (lfinderMain "linux" exampleFs 10 exampleConfig [⟨false, ["a.txt"]⟩]
      none).streamed =
      ["/root/a.txt (hardlink)", "/root/link_to_a (symlink) -> a.txt",
       "/root/sub/hard_a (hardlink)"]
    ∧ (lfinderMain "linux" exampleFs 10 exampleConfig [⟨false, ["a.txt"]⟩]
      none).streamed.length ≠ 2 :=
  ⟨rfl, by decide⟩

/-- C1 (corrected): on the example tree with target `a.txt`, the
default-mode scan from `/root` exits with status 0 and streams exactly
three match lines: a `(hardlink)` line for `a.txt` itself, one
`(symlink) ->` line for `link_to_a`, and one `(hardlink)` line for
`sub/hard_a` — and no other line. -/
theorem c1_example_run :
    lfinderMain "linux" exampleFs 10 exampleConfig [⟨false, ["a.txt"]⟩] none =
      ⟨0, ["/root/a.txt (hardlink)", "/root/link_to_a (symlink) -> a.txt",
           "/root/sub/hard_a (hardlink)"], none⟩ := by decide

/-- C2 counterexample: with target path `/w/l1` (itself a symlink to
`/w/a.txt`), the candidate symlink `/w/l2` resolves exactly to the
target's canonical (absolute, symlink-resolved) path `/w/a.txt`, yet
`checkAndSendSymlink` reports no match: the code compares against the
target path made absolute only, never symlink-resolving it. -/
theorem c2_counterexample :
    evalSymlinks symFs ["w", "l2"] = some ["w", "a.txt"]
    ∧ evalSymlinks symFs (cleanComps ["w", "l1"]) = some ["w", "a.txt"]
    ∧ checkAndSendSymlink symFs ["w", "l2"] ["w", "l1"] = [] :=
  ⟨rfl, rfl, rfl⟩

/-- C2 (corrected): for a candidate path that is a symbolic link, the
symlink check reports a match if and only if the candidate's fully
resolved canonical absolute path equals the target path made absolute
and lexically cleaned — without resolving symlinks in the target path. -/
theorem c2_canonical_comparison (root : FsNode) (path target : Path)
    (la : Bool) (lc : List String)
    (h : lookupFrom root path = some (FsNode.symlink la lc)) :
    checkAndSendSymlink root path target ≠ [] ↔
      evalSymlinks root path = some (cleanComps target) := by
  unfold checkAndSendSymlink checkAndSendSymlinkOps
  have hrl : readlink root path = some (la, lc) := by simp [readlink, h]
  cases he : evalSymlinks root path with
  | none => simp
  | some r =>
    have hc : cleanComps r = r := evalSymlinks_clean he
    by_cases hcmp : cleanComps r = cleanComps target
    · have hrt : r = cleanComps target := by rw [← hc, hcmp]
      simp [hrl, hcmp, hrt]
      rw [← hrt]
      exact hc
    · have : r ≠ cleanComps target := fun hr => hcmp (by rw [hc, hr])
      simp [hcmp, this]

/-- C2 witness: a relative symlink (`/w/l1`) and an absolute symlink
(`/w/l3`) to the same file both match when the target path contains no
symlink components. -/
theorem c2_witness :
    checkAndSendSymlink symFs ["w", "l1"] ["w", "a.txt"] ≠ []
    ∧ checkAndSendSymlink symFs ["w", "l3"] ["w", "a.txt"] ≠ [] :=
  ⟨(c2_canonical_comparison symFs ["w", "l1"] ["w", "a.txt"] false ["a.txt"]
      rfl).mpr rfl,
   (c2_canonical_comparison symFs ["w", "l3"] ["w", "a.txt"] true ["w", "a.txt"]
      rfl).mpr rfl⟩

/-- C3 counterexample: with a match line still buffered in the results
channel and the deadline signal fired, the drain loop may take the
cancellation branch directly: it terminates (prints the status line)
with the buffered line never delivered. -/
theorem c3_counterexample :
    DrainStep (some CancelReason.deadlineExceeded) false
      ⟨["/root/sub/hard_a (hardlink)"], [], false, none⟩
      ⟨["/root/sub/hard_a (hardlink)"], [], true, some "Search timed out"⟩
    ∧ (DrainState.mk ["/root/sub/hard_a (hardlink)"] [] true
        (some "Search timed out")).printed = []
    ∧ (DrainState.mk ["/root/sub/hard_a (hardlink)"] [] true
        (some "Search timed out")).finished = true :=
  ⟨DrainStep.ctxDone _ _ CancelReason.deadlineExceeded rfl, rfl, rfl⟩

/-- C3 (corrected): whenever the drain loop observes a termination
signal it prints a terminal status line that distinguishes timeout from
cancellation and exits; but match results still buffered in the result
queue at that moment are dropped (the printed lines stay unchanged and
no further step delivers them), not delivered. -/
theorem c3_cancel_status (cancel : Option CancelReason) (closed : Bool)
    (buf printed : List String) (r : CancelReason) (h : cancel = some r) :
    DrainStep cancel closed ⟨buf, printed, false, none⟩
      ⟨buf, printed, true, some (statusLine r)⟩
    ∧ statusLine CancelReason.deadlineExceeded ≠ statusLine CancelReason.canceled
    ∧ ∀ s', ¬ DrainStep cancel closed ⟨buf, printed, true, some (statusLine r)⟩ s' := by
  refine ⟨DrainStep.ctxDone buf printed r h, by decide, ?_⟩
  intro s' h'
  nomatch h'

/-- C3 witness: the cancellation branch at a concrete buffered state. -/
theorem c3_witness :
    DrainStep (some CancelReason.canceled) false
      ⟨["/w/l1 (symlink) -> a.txt"], [], false, none⟩
      ⟨["/w/l1 (symlink) -> a.txt"], [], true, some (statusLine CancelReason.canceled)⟩ :=
  (c3_cancel_status (some CancelReason.canceled) false
    ["/w/l1 (symlink) -> a.txt"] [] CancelReason.canceled rfl).1

/-- C4 counterexample: a usage error (no positional argument) is an
outcome other than "hardlinks-only without inode support", yet the
process exits with status 1, not 0. -/
theorem c4_counterexample :
    (lfinderMain "linux" exampleFs 10 exampleConfig [] none).exitCode = 1
    ∧ exampleConfig.HardlinksOnly = false :=
  ⟨rfl, rfl⟩

/-- C4 (corrected): hardlinks-only mode with undeterminable inode
identity fails fast at setup with exit status 1 and zero streamed
results; usage errors and target-stat failures likewise exit with
status 1 and zero streamed results; every run that passes setup —
including one terminated by the deadline with partial results — exits
with status 0. -/
theorem c4_exit_codes (goos : String) (root : FsNode) (fuel : Nat)
    (config : Config) (t : TargetArg) (cancel : Option (CancelReason × Nat))
    (info : FileInfo) (e : String) :
    (lfinderMain goos root fuel config [] cancel = ⟨1, [], none⟩)
    ∧ (statFollow root (resolveTargetPath config.SearchPath t) = none →
        lfinderMain goos root fuel config [t] cancel = ⟨1, [], none⟩)
    ∧ (statFollow root (resolveTargetPath config.SearchPath t) = some info →
        getInode goos info = Except.error e → config.HardlinksOnly = true →
        lfinderMain goos root fuel config [t] cancel = ⟨1, [], none⟩)
    ∧ (∀ ino, statFollow root (resolveTargetPath config.SearchPath t) = some info →
        getInode goos info = Except.ok ino →
        (lfinderMain goos root fuel config [t] cancel).exitCode = 0)
    ∧ (statFollow root (resolveTargetPath config.SearchPath t) = some info →
        getInode goos info = Except.error e → config.HardlinksOnly = false →
        (lfinderMain goos root fuel config [t] cancel).exitCode = 0) := by
  refine ⟨by simp [lfinderMain], ?_, ?_, ?_, ?_⟩
  · intro h1
    simp [lfinderMain, h1]
  · intro h1 h2 h3
    simp [lfinderMain, h1, h2, h3]
  · intro ino h1 h2
    rcases cancel with _ | ⟨r, k⟩ <;> simp [lfinderMain, h1, h2, finishScan]
  · intro h1 h2 h3
    rcases cancel with _ | ⟨r, k⟩ <;> simp [lfinderMain, h1, h2, h3, finishScan]

/-- C4 witness: on Windows in hardlinks-only mode the run fails fast
with exit 1 and nothing streamed; a deadline-terminated run that passed
setup exits 0. -/
theorem c4_witness :
    lfinderMain "windows" exampleFs 10 hardOnlyConfig [⟨false, ["a.txt"]⟩] none =
      ⟨1, [], none⟩
    ∧ (lfinderMain "linux" exampleFs 10 exampleConfig [⟨false, ["a.txt"]⟩]
        (some (CancelReason.deadlineExceeded, 1))).exitCode = 0 :=
  ⟨(c4_exit_codes "windows" exampleFs 10 hardOnlyConfig ⟨false, ["a.txt"]⟩ none
      ⟨FileMode.regular, SysInfo.statT 1⟩
      "hard links detection not supported on Windows").2.2.1 rfl rfl rfl,
   (c4_exit_codes "linux" exampleFs 10 exampleConfig ⟨false, ["a.txt"]⟩
      (some (CancelReason.deadlineExceeded, 1)) ⟨FileMode.regular, SysInfo.statT 1⟩
      "").2.2.2.1 1 rfl rfl⟩

/-- C5 (confirmed): for a skip-list entry `s` at or below the search
root, no candidate strictly below `s` is ever enqueued by the walker,
and every match line of the scan arises from some enqueued candidate —
so nothing under a skip-directory is reported, even if it would match. -/
theorem c5_skipdir_prune (goos : String) (root : FsNode) (fuel : Nat)
    (config : Config) (target : Path) (ino : Nat) (s : Path)
    (hs : s ∈ config.SkipDirs) (hps : leadsTo config.SearchPath s = true) :
    (∀ q ∈ walkCandidates root config.SkipDirs fuel config.SearchPath,
        ¬(leadsTo s q = true ∧ s ≠ q))
    ∧ (∀ line ∈ runScan goos root fuel config target ino,
        ∃ c, c ∈ walkCandidates root config.SkipDirs fuel config.SearchPath ∧
          line ∈ workerStep goos config root target ino c) := by
  constructor
  · intro q hq
    unfold walkCandidates at hq
    cases hl : lookupFrom root config.SearchPath with
    | none => rw [hl] at hq; cases hq
    | some n =>
      rw [hl] at hq
      exact walkNode_pruned config.SkipDirs s hs fuel n config.SearchPath hps q hq
  · intro line hline
    simpa [runScan, List.mem_flatMap] using hline

/-- C5 witness: with `/root/skipme` in the skip list, the planted
matching file `/root/skipme/planted` is never enqueued as a candidate. -/
theorem c5_witness :
    ["root", "skipme"] ∈ skipConfig.SkipDirs
    ∧ leadsTo skipConfig.SearchPath ["root", "skipme"] = true
    ∧ ["root", "skipme", "planted"] ∉
        walkCandidates skipFs skipConfig.SkipDirs 10 skipConfig.SearchPath := by
  refine ⟨by decide, by decide, fun hq => ?_⟩
  exact (c5_skipdir_prune "linux" skipFs 10 skipConfig ["root", "a.txt"] 1
    ["root", "skipme"] (by decide) (by decide)).1 _ hq ⟨by decide, by decide⟩

/-- C6 (code_bug): part_000's `getInode` returns a typed failure both on
a platform without inode semantics and on an unexpected payload shape;
but the legacy `checkAndSendHardlink` of `src/main.go` performs an
unchecked type assertion and panics on the same unexpected payload. -/
theorem c6_inode_extraction :
    getInode "linux" ⟨FileMode.regular, SysInfo.other⟩ =
      Except.error "unable to get system file info"
    ∧ getInode "windows" ⟨FileMode.regular, SysInfo.statT 7⟩ =
      Except.error "hard links detection not supported on Windows"
    ∧ mainGoCheckAndSendHardlink ["w", "f"] 7 ⟨FileMode.regular, SysInfo.other⟩ =
      GoResult.panicked :=
  ⟨rfl, rfl, rfl⟩

/-- C7 (code_bug): part_000 resolves the target against the search path
exactly when it is not absolute, and a failing target stat aborts with
exit status 1 before any scanning; but the legacy `src/main.go` joins
the search path unconditionally, mangling an absolute target path. -/
theorem c7_target_resolution :
    resolveTargetPath ["home", "user"] ⟨true, ["tmp", "a.txt"]⟩ = ["tmp", "a.txt"]
    ∧ resolveTargetPath ["home", "user"] ⟨false, ["a.txt"]⟩ = ["home", "user", "a.txt"]
    ∧ mainGoTargetPath ["home", "user"] ⟨true, ["tmp", "a.txt"]⟩ =
        ["home", "user", "tmp", "a.txt"]
    ∧ mainGoTargetPath ["home", "user"] ⟨true, ["tmp", "a.txt"]⟩ ≠ ["tmp", "a.txt"]
    ∧ lfinderMain "linux" exampleFs 10 exampleConfig [⟨false, ["missing.txt"]⟩]
        none = ⟨1, [], none⟩ :=
  ⟨rfl, rfl, rfl, by decide, rfl⟩

/-- C8 (confirmed): with both mode flags set, the worker body behaves
exactly like the default both mode — a symlink candidate receives the
symlink check, a regular file the hardlink check, anything else nothing. -/
theorem c8_both_flags_like_default (goos : String) (root : FsNode) (sp : Path)
    (skips : List Path) (tmo : Nat) (target : Path) (ino : Nat) (path : Path) :
    workerStep goos ⟨true, true, sp, skips, tmo⟩ root target ino path
      = workerStep goos ⟨false, false, sp, skips, tmo⟩ root target ino path
    ∧ workerStep goos ⟨true, true, sp, skips, tmo⟩ root target ino path
      = (match lstat root path with
         | none => []
         | some fileInfo =>
           if fileInfo.mode == FileMode.symlink then
             checkAndSendSymlink root path target
           else if fileInfo.mode == FileMode.regular then
             checkAndSendHardlink goos path ino fileInfo
           else []) := by
  cases h : lstat root path with
  | none => simp [workerStep, h]
  | some info =>
    obtain ⟨m, s⟩ := info
    cases m <;> simp [workerStep, h]

/-- C9 (confirmed): when a candidate's resolution matches the target's
canonical path but the subsequent `os.Readlink` fails, no line at all is
produced for that candidate — the match is silently dropped. -/
theorem c9_readlink_failure_drops (path target resolved : Path)
    (h : cleanComps resolved = cleanComps target) :
    checkAndSendSymlinkOps path target (some resolved) none = [] := by
  simp [checkAndSendSymlinkOps, h]

/-- C9 witness: a concrete matching resolution with a failed readlink
produces no output. -/
theorem c9_witness :
    cleanComps ["w", "a.txt"] = cleanComps ["w", "a.txt"]
    ∧ checkAndSendSymlinkOps ["w", "l2"] ["w", "a.txt"] (some ["w", "a.txt"])
        none = [] :=
  ⟨rfl, c9_readlink_failure_drops ["w", "l2"] ["w", "a.txt"] ["w", "a.txt"] rfl⟩

/-- C10 (confirmed): a candidate whose metadata says directory produces
no match line in any mode: the symlink check requires the symlink mode
bit and the hardlink check requires a regular file. -/
theorem c10_directories_silent (goos : String) (config : Config) (root : FsNode)
    (target : Path) (ino : Nat) (path : Path) (info : FileInfo)
    (h : lstat root path = some info) (hm : info.mode = FileMode.dir) :
    workerStep goos config root target ino path = [] := by
  obtain ⟨m, s⟩ := info
  cases hm
  simp [workerStep, h]

/-- C10 witness: the directory candidate `/root/sub` yields no output. -/
theorem c10_witness :
    lstat exampleFs ["root", "sub"] = some ⟨FileMode.dir, SysInfo.statT 0⟩
    ∧ workerStep "linux" exampleConfig exampleFs ["root", "a.txt"] 1
        ["root", "sub"] = [] :=
  ⟨rfl, c10_directories_silent "linux" exampleConfig exampleFs ["root", "a.txt"] 1
    ["root", "sub"] ⟨FileMode.dir, SysInfo.statT 0⟩ rfl rfl⟩

end LFinder
